import Mathlib

/-!
Verification of the scraper-filmes extraction/validation/load pipeline.

This file gives a shallow embedding, in Lean, of the functions of the
repository that the verified properties talk about:

* `scrapers/utils/models.py` (`Movie`) and
  `scrapers/utils/data_quality.py` (`DataQualityChecker.check_movie`);
* `scrapers/utils/parse_utils.py` (`parse_rating`);
* `filmes/filmes/spiders/scraper_filmes.py` (`GB_to_MB`, `split_duracao`,
  and the imdb / ano disambiguation steps of `parse_detail`);
* `src/scrapers/gratis_torrent/http_client.py` and
  `src/scrapers/gratis_torrent/extract.py` (`collect_movie_links`);
* `scrapers/gratis_torrent/bigquery_client.py` (`merge_staging_to_main`,
  `truncate_staging_table`, `load_movies_to_bigquery`).

Python strings are embedded as `List Char`, Python `float` as `ℚ` (exact;
the only arithmetic performed is parsing decimal literals and multiplying
by 1024, which is exact in IEEE double as well), Python `int` as `Int`,
and a Python expression that may raise as an `Option`.
-/

namespace ScraperFilmes

/-! ### Python string primitives -/

/-- The whitespace characters stripped by Python `str.strip()` (the ASCII
ones; the repository only ever strips spaces). -/
def isPyWS (c : Char) : Bool :=
  c == ' ' || c == '\t' || c == '\n' || c == '\r' || c == '\x0b' || c == '\x0c'

/-- Python `str.lstrip()`. -/
def lstripWS (l : List Char) : List Char := l.dropWhile isPyWS

/-- Python `str.rstrip()`. -/
def rstripWS (l : List Char) : List Char := (l.reverse.dropWhile isPyWS).reverse

/-- Python `str.strip()` (stripping the two ends commutes, so this order
is equivalent to the one Python uses). -/
def stripWS (l : List Char) : List Char := lstripWS (rstripWS l)

/-- Predicate `isLead pat l` is Python `l.startswith(pat)` on character lists. -/
def isLead : List Char → List Char → Bool
  | [], _ => true
  | _ :: _, [] => false
  | p :: ps, c :: cs => p == c && isLead ps cs

/-- Predicate `hasSub pat l` is Python `pat in l` (substring containment). -/
def hasSub (pat : List Char) : List Char → Bool
  | [] => pat.isEmpty
  | c :: rest => isLead pat (c :: rest) || hasSub pat rest

/-- Fuel-driven worker for `removeSubstr`; the fuel is an upper bound on
the length of the remaining list, so it never runs out. -/
def rmSubGo (p : Char) (ps : List Char) : Nat → List Char → List Char
  | _, [] => []
  | 0, l => l
  | fuel + 1, c :: rest =>
    if isLead (p :: ps) (c :: rest) then rmSubGo p ps fuel (rest.drop ps.length)
    else c :: rmSubGo p ps fuel rest

/-- Python `l.replace(pat, "")` for a non-empty pattern `p :: ps`:
left-to-right scan deleting non-overlapping occurrences. -/
def removeSubstr (p : Char) (ps : List Char) (l : List Char) : List Char :=
  rmSubGo p ps l.length l

/-- Numeric value of a decimal digit character. -/
def digitVal (c : Char) : Nat := c.toNat - 48

/-- Value of a list of decimal digit characters, most significant first. -/
def digitsVal (l : List Char) : Nat := l.foldl (fun acc c => acc * 10 + digitVal c) 0

/-- The digits-only core of Python `int(...)`. -/
def intCore (s : List Char) : Option Nat :=
  if s ≠ [] ∧ s.all Char.isDigit then some (digitsVal s) else none

/-- Python `int(string)`: strips whitespace, allows an optional sign,
then requires a non-empty run of decimal digits; raises (here: `none`)
otherwise. -/
def pyIntParse (l : List Char) : Option Int :=
  let s := stripWS l
  if s.head? = some '-' then (intCore (s.drop 1)).map (fun n => -(n : Int))
  else if s.head? = some '+' then (intCore (s.drop 1)).map (fun n => (n : Int))
  else (intCore s).map (fun n => (n : Int))

/-- The unsigned core of Python `float(...)` restricted to plain decimal
literals `digits`, `digits.digits`, `digits.` and `.digits` (the only
float shapes the scrapers ever feed it). -/
def floatCore (s : List Char) : Option ℚ :=
  let ip := s.takeWhile Char.isDigit
  let rest := s.drop ip.length
  if rest = [] then (if ip = [] then none else some (digitsVal ip : ℚ))
  else if rest.head? = some '.' then
    let fp := rest.drop 1
    if fp.all Char.isDigit ∧ (ip ≠ [] ∨ fp ≠ []) then
      some ((digitsVal ip : ℚ) + (digitsVal fp : ℚ) / (10 : ℚ) ^ fp.length)
    else none
  else none

/-- Python `float(string)` on plain decimal literals: strips whitespace,
allows an optional sign; raises (here: `none`) on anything else, e.g. on
`"???"` or on an en/em dash. -/
def pyFloatParse (l : List Char) : Option ℚ :=
  let s := stripWS l
  if s.head? = some '-' then (floatCore (s.drop 1)).map (fun q => -q)
  else if s.head? = some '+' then floatCore (s.drop 1)
  else floatCore s

/-- Python `s.replace(",", ".")` character map. -/
def commaDot (c : Char) : Char := if c = ',' then '.' else c

/-! ### `scrapers/utils/models.py`: the pydantic `Movie` model -/

/-- The pydantic `Movie` of `scrapers/utils/models.py`: thirteen fields,
every one optional. -/
structure Movie where
  titulo_dublado : Option String
  titulo_original : Option String
  imdb : Option ℚ
  ano : Option Int
  genero : Option String
  tamanho : Option String
  duracao : Option String
  qualidade_video : Option ℚ
  qualidade : Option String
  dublado : Option Bool
  sinopse : Option String
  link : Option String
  poster_url : Option String
deriving DecidableEq, Repr

/-- The pydantic field constraints of `Movie`: `imdb` in `[0, 10]`,
`ano ≥ 1888` (a lower bound only), `qualidade_video ≥ 0`; everything else
unconstrained.  A record violating any one of them is schema-rejected. -/
def schemaOk (m : Movie) : Bool :=
  (match m.imdb with
   | none => true
   | some q => decide (0 ≤ q ∧ q ≤ 10)) &&
  (match m.ano with
   | none => true
   | some a => decide (1888 ≤ a)) &&
  (match m.qualidade_video with
   | none => true
   | some q => decide (0 ≤ q))

/-! ### `scrapers/utils/data_quality.py`: `DataQualityChecker.check_movie` -/

/-- The quality issues `check_movie` can append (tags for the literal
message strings built in the Python source). -/
inductive Issue where
  | missingBothTitles
  | missingLink
  | lowCompleteness
  | invalidYear
  | invalidImdb
deriving DecidableEq, Repr

/-- Python truthiness test `not x` for an optional string: `None` and the
empty string are falsy. -/
def pyNotStr : Option String → Bool
  | none => true
  | some s => s = ""

/-- Number of schema fields (`len(movie.model_fields)`). -/
def totalFields : Nat := 13

/-- Number of fields of `movie.model_dump()` whose value is not `None`. -/
def filledFields (m : Movie) : Nat :=
  (if m.titulo_dublado.isSome then 1 else 0) +
  (if m.titulo_original.isSome then 1 else 0) +
  (if m.imdb.isSome then 1 else 0) +
  (if m.ano.isSome then 1 else 0) +
  (if m.genero.isSome then 1 else 0) +
  (if m.tamanho.isSome then 1 else 0) +
  (if m.duracao.isSome then 1 else 0) +
  (if m.qualidade_video.isSome then 1 else 0) +
  (if m.qualidade.isSome then 1 else 0) +
  (if m.dublado.isSome then 1 else 0) +
  (if m.sinopse.isSome then 1 else 0) +
  (if m.link.isSome then 1 else 0) +
  (if m.poster_url.isSome then 1 else 0)

/-- First `check_movie` block: `not movie.titulo_dublado and not
movie.titulo_original`. -/
def titleIssue (m : Movie) : List Issue :=
  if pyNotStr m.titulo_dublado ∧ pyNotStr m.titulo_original then [Issue.missingBothTitles] else []

/-- Second `check_movie` block: `not movie.link`. -/
def linkIssue (m : Movie) : List Issue :=
  if pyNotStr m.link then [Issue.missingLink] else []

/-- Third `check_movie` block: completeness below the checker's
`min_fields_filled` threshold. -/
def completenessIssue (thr : ℚ) (m : Movie) : List Issue :=
  if (filledFields m : ℚ) / (totalFields : ℚ) < thr then [Issue.lowCompleteness] else []

/-- Fourth `check_movie` block: `movie.ano and (movie.ano < 1888 or
movie.ano > 2030)` — guarded by Python truthiness, so `0` would be
skipped. -/
def anoIssue (o : Option Int) : List Issue :=
  match o with
  | none => []
  | some a => if a ≠ 0 ∧ (a < 1888 ∨ a > 2030) then [Issue.invalidYear] else []

/-- Fifth `check_movie` block: `movie.imdb` truthy and out of `[0, 10]`
(`float` applied to a float never raises, so the "Invalid IMDB format"
branch is unreachable on schema-typed input). -/
def imdbIssue (o : Option ℚ) : List Issue :=
  match o with
  | none => []
  | some q => if q ≠ 0 ∧ (q < 0 ∨ q > 10) then [Issue.invalidImdb] else []

/-- The issue list accumulated by one `check_movie` call, in source
order. -/
def issuesFor (thr : ℚ) (m : Movie) : List Issue :=
  titleIssue m ++ linkIssue m ++ completenessIssue thr m ++ anoIssue m.ano ++ imdbIssue m.imdb

/-- Method `DataQualityChecker.check_movie`: `True` exactly when the issue list
stays empty. -/
def check_movie (thr : ℚ) (m : Movie) : Bool := issuesFor thr m = []

/-! ### `scrapers/utils/parse_utils.py`: `parse_rating` -/

/-- Function `parse_rating`: `None` for a falsy input; otherwise
`float(rating_text.replace(",", ".").strip())`, with a failed conversion
(`ValueError`) turned into `None`. -/
def parse_rating (rating_text : Option (List Char)) : Option ℚ :=
  match rating_text with
  | none => none
  | some s => if s = [] then none else pyFloatParse (stripWS (s.map commaDot))

/-! ### `filmes/filmes/spiders/scraper_filmes.py`: `GB_to_MB`, `split_duracao` -/

/-- A Python value as it flows through `parse_detail`'s untyped locals:
`None`, an `int`, a `float`, or a `str`. -/
inductive PyV where
  | vNone
  | vInt (n : Int)
  | vFloat (q : ℚ)
  | vStr (s : List Char)
deriving DecidableEq, Repr

/-- Function `GB_to_MB`: an `int` input is returned unchanged; a string containing
`"GB"` has `"GB"` removed, is stripped and float-parsed, and the result is
multiplied by 1024; otherwise `"MB"` is removed (a no-op for a bare
number), the string is stripped and float-parsed.  A failing `float(...)`
raises, i.e. yields `none`. -/
def GB_to_MB : Int ⊕ List Char → Option ℚ
  | Sum.inl n => some (n : ℚ)
  | Sum.inr t =>
    if hasSub ['G', 'B'] t then
      (pyFloatParse (stripWS (removeSubstr 'G' ['B'] t))).map (fun q => q * 1024)
    else
      pyFloatParse (stripWS (removeSubstr 'M' ['B'] t))

/-- The characters of `"Min."`. -/
def minTail : List Char := ['i', 'n', '.']

/-- The body of `split_duracao` after the pipe split: the `"h"` branch
removes every `"h"`, strips, removes `"Min."`, strips, splits on single
spaces and combines `int(parts[0]) * 60 + int(parts[1])`; the plain
branch removes `"Min."`, strips and converts.  A missing list index or a
failing `int(...)` raises, i.e. yields `none`. -/
def splitDuracaoCore (s1 : List Char) : Option Int :=
  if hasSub ['h'] s1 then
    let s2 := stripWS (removeSubstr 'h' [] s1)
    let s3 := stripWS (removeSubstr 'M' minTail s2)
    match s3.splitOn ' ' with
    | p0 :: p1 :: _ => do
      let x ← pyIntParse p0
      let y ← pyIntParse p1
      pure (x * 60 + y)
    | _ => none
  else
    pyIntParse (stripWS (removeSubstr 'M' minTail s1))

/-- Function `split_duracao`: if the string contains `"|"`, only the part before
the first `"|"` is kept (stripped); then `splitDuracaoCore`. -/
def split_duracao (s0 : List Char) : Option Int :=
  splitDuracaoCore
    (if hasSub ['|'] s0 then stripWS (s0.takeWhile (fun c => c != '|')) else s0)

/-! ### `parse_detail`: the imdb and ano disambiguation steps

`parse_detail` reads the same anchor list twice: once for the imdb rating
(lines 77–97) and once for the year (lines 108–136).  `anchors` is the
list of anchor texts returned by the xpath `extract()`, `infos` the
positional token list (after the `"MKV"` deletion). -/

/-- The `"???"` literal. -/
def qqq : List Char := ['?', '?', '?']

/-- The en dash (U+2013) the spider tests for with `"–" not in imdb`. -/
def dashChar : Char := '–'

/-- Lines 77–97: `imdb = anchors[0]` inside `try` (an empty list raises
and the `except` branch reads `infos[2]` raw); `"???"` (or `None`) becomes
the sentinel `-1`; a value starting with `"20"` is a year link, so imdb is
re-read from `infos[2]` with `":"` removed and stripped.  A missing
`infos[2]` raises out of the `except` handler, i.e. yields `none`. -/
def spiderImdbRaw (anchors infos : List (List Char)) : Option PyV :=
  match anchors.head? with
  | none => (infos.get? 2).map PyV.vStr
  | some a0 =>
    if a0 = qqq then some (PyV.vInt (-1))
    else if isLead ['2', '0'] a0 then
      (infos.get? 2).map (fun s => PyV.vStr (stripWS (s.filter (fun c => c != ':'))))
    else some (PyV.vStr a0)

/-- Lines 144–148: a string imdb value containing the en dash becomes the
sentinel `-1`; any other string is converted with
`float(imdb.replace(",", "."))` (raising, i.e. `none`, if malformed);
non-string values pass through. -/
def spiderImdb (anchors infos : List (List Char)) : Option PyV :=
  (spiderImdbRaw anchors infos).bind fun v =>
    match v with
    | PyV.vStr s =>
      if hasSub [dashChar] s then some (PyV.vInt (-1))
      else (pyFloatParse (s.map commaDot)).map PyV.vFloat
    | w => some w

/-- Lines 108–118: `ano = anchors[1] if len(anchors) > 1 else anchors[0]`
(an empty list raises, i.e. `none`); a chosen value containing `","` is a
genre list leaking into the position, so `ano = None`. -/
def spiderAnoChosen (anchors : List (List Char)) : Option (Option (List Char)) :=
  match anchors with
  | [] => none
  | [a0] => some (if hasSub [','] a0 then none else some a0)
  | _ :: a1 :: _ => some (if hasSub [','] a1 then none else some a1)

/-- Line 136: `ano = int(ano.replace(":", "").strip()) if ano is not None
else -1`.  The `None` produced by the comma test is stored as the sentinel
`-1`; a failing `int(...)` raises, i.e. yields `none`. -/
def spiderAno (anchors : List (List Char)) : Option PyV :=
  (spiderAnoChosen anchors).bind fun chosen =>
    match chosen with
    | none => some (PyV.vInt (-1))
    | some a => (pyIntParse (stripWS (a.filter (fun c => c != ':')))).map PyV.vInt

/-! ### `collect_movie_links` (gratis_torrent)

A listing page is embedded as the list of `href` attributes of the
anchors matched by the structural selector `#capas_pequenas > div > a`
(`none` for an anchor with no `href`); a page lacking the container gives
the empty list, since `select` then matches nothing. -/

/-- The `if link: links.append(link)` loop: keep the truthy hrefs
(dropping `None` and the empty string), in page order. -/
def truthyHrefs (page : List (Option String)) : List String :=
  page.filterMap fun h =>
    match h with
    | none => none
    | some s => if s = "" then none else some s

/-- Worker for `dedupFirst`, carrying the set of already-seen links. -/
def dedupFirstGo : List String → List String → List String
  | _, [] => []
  | seen, x :: rest =>
    if x ∈ seen then dedupFirstGo seen rest else x :: dedupFirstGo (x :: seen) rest

/-- Python `list(dict.fromkeys(links))`: deduplicate keeping the first
occurrence of each link, preserving order. -/
def dedupFirst (links : List String) : List String := dedupFirstGo [] links

/-- Function `collect_movie_links` as defined in
`src/scrapers/gratis_torrent/extract.py`. -/
def collect_movie_links_extract (page : List (Option String)) : List String :=
  dedupFirst (truthyHrefs page)

/-- Function `collect_movie_links` as defined in
`src/scrapers/gratis_torrent/http_client.py` (the variant imported by
both `scraper.py` files): `list(set(links))`.  A CPython `set` iterates
in hash-table order, so the embedding takes the enumeration order as an
oracle `pyset`; the one property the code guarantees is captured by
`setEnumOrder`. -/
def collect_movie_links_http (pyset : List String → List String)
    (page : List (Option String)) : List String :=
  pyset (truthyHrefs page)

/-- What `list(set(links))` guarantees about its enumeration: the output
depends only on which elements are present, never on their first-seen
positions (a `set` retains no insertion order). -/
def setEnumOrder (pyset : List String → List String) : Prop :=
  ∀ l l' : List String, (∀ x, x ∈ l ↔ x ∈ l') → pyset l = pyset l'

/-! ### `bigquery_client.py`: staging, merge, truncate, load pipeline -/

/-- One row of the canonical/staging tables: the natural key `link`, the
load timestamp `date_updated`, and all remaining schema columns bundled
as an opaque payload `α` (the merge statement treats them uniformly). -/
structure BQRow (α : Type) where
  link : String
  payload : α
  date_updated : Int
deriving DecidableEq, Repr

/-- Function `merge_staging_to_main`'s MERGE statement, on
`target.link = source.link`: a matched target row keeps its key, takes
every non-key column from the source row, and gets
`date_updated = CURRENT_TIMESTAMP()` (`now`, not the staged value); an
unmatched source row is inserted with `date_updated = now`. -/
def mergeTables {α : Type} (target source : List (BQRow α)) (now : Int) :
    List (BQRow α) :=
  (target.map fun t =>
    match source.find? (fun s => s.link == t.link) with
    | some s => BQRow.mk t.link s.payload now
    | none => t) ++
  ((source.filter fun s => !(target.any fun t => t.link == s.link)).map
    fun s => BQRow.mk s.link s.payload now)

/-- The persistent BigQuery state: the canonical table and the staging
table. -/
structure BQState (α : Type) where
  main : List (BQRow α)
  staging : List (BQRow α)
deriving DecidableEq, Repr

/-- The steps `load_movies_to_bigquery` runs, in order.  `setup` is
`setup_tables` (which force-recreates the staging table, so a run starts
from empty staging). -/
inductive LoadStep where
  | setup
  | stageLoad
  | mergeStep
  | truncateStep
deriving DecidableEq, Repr

/-- Function `load_movies_to_bigquery`, with a fault model: `stageOk`, `mergeOk`
and `truncOk` say whether `load_data_to_staging`, `merge_staging_to_main`
and `truncate_staging_table` succeed.  The result records whether the run
raised (`Except.error`), the final `BQState`, and the trace of steps that
were invoked; a raising step ends the run (its `BigQueryException`
propagates), so nothing after it is invoked. -/
def load_movies_to_bigquery {α : Type} (stageOk mergeOk truncOk : Bool)
    (st : BQState α) (movies : List (BQRow α)) (now : Int) :
    Except Unit (BQState α) × BQState α × List LoadStep :=
  let st1 : BQState α := BQState.mk st.main []
  if stageOk = false then
    (Except.error (), st1, [LoadStep.setup, LoadStep.stageLoad])
  else
    let st2 : BQState α := BQState.mk st1.main movies
    if mergeOk = false then
      (Except.error (), st2, [LoadStep.setup, LoadStep.stageLoad, LoadStep.mergeStep])
    else
      let st3 : BQState α := BQState.mk (mergeTables st2.main st2.staging now) st2.staging
      if truncOk = false then
        (Except.error (), st3,
          [LoadStep.setup, LoadStep.stageLoad, LoadStep.mergeStep, LoadStep.truncateStep])
      else
        (Except.ok (BQState.mk st3.main []), BQState.mk st3.main [],
          [LoadStep.setup, LoadStep.stageLoad, LoadStep.mergeStep, LoadStep.truncateStep])

/-- The happy-path load phase (all steps succeed), returning the final
state: stage the batch, merge it into the canonical table, truncate
staging. -/
def loadPhase {α : Type} (st : BQState α) (movies : List (BQRow α)) (now : Int) :
    BQState α :=
  BQState.mk (mergeTables st.main movies now) []

/-- One fault-free run of `load_movies_to_bigquery`, projected to the
resulting table state. -/
def loadOnce {α : Type} (st : BQState α) (movies : List (BQRow α)) (now : Int) :
    BQState α :=
  (load_movies_to_bigquery true true true st movies now).2.1

/-! ### Concrete fixtures used by counterexamples and witnesses -/

/-- A plausible positional token list for a comando.la detail page (the
`infos` list of `parse_detail` after the `"MKV"` deletion). -/
def infos0 : List (List Char) :=
  [": Matrix".toList, ": The Matrix".toList, ": 8.7".toList, ": Ação".toList,
   ": 1999".toList, ": MP4".toList, ": Português".toList, ": 10".toList,
   "2.5 GB".toList, "2h 16 Min.".toList, ": 10".toList, "1080p".toList]

/-- An anchor value that is really a genre list leaking into the year
position (it contains a comma). -/
def genreLeak : List Char := "Ação, Aventura".toList

/-- A fully-filled, schema-valid movie whose year is 2031. -/
def movie2031 : Movie :=
  Movie.mk (some "Filme Futuro") (some "Future Movie") (some 8) (some 2031)
    (some "Ação") (some "2.5") (some "136") (some 10) (some "1080p")
    (some true) (some "Uma sinopse.") (some "https://example.com/f") (some "p.jpg")

/-- A movie with every field `None` except both titles empty strings and
an empty link (all falsy but not `None`). -/
def movieEmptyTitles : Movie :=
  Movie.mk (some "") (some "") none none none none none none none none none
    (some "") none

/-- A movie with every field `None`. -/
def movieAllNone : Movie :=
  Movie.mk none none none none none none none none none none none none none

/-- A one-row canonical table used by load-pipeline witnesses. -/
def st0 : BQState String := BQState.mk [BQRow.mk "L1" "old" 0] []

/-- A two-row batch (one matching `st0`, one new) used by load-pipeline
witnesses. -/
def movies0 : List (BQRow String) := [BQRow.mk "L1" "new" 3, BQRow.mk "L2" "x" 3]

/-! ## Theorems -/

/-! ### Quality gate (claims C8, C9, C10) -/

/-- The issue list is non-empty as soon as any of its five blocks is. -/
theorem check_movie_false_of_mem {thr : ℚ} {m : Movie} {i : Issue}
    (h : i ∈ issuesFor thr m) : check_movie thr m = false := by
  have hne : issuesFor thr m ≠ [] := by
    intro he
    rw [he] at h
    exact absurd h (List.not_mem_nil i)
  simp [check_movie, hne]

/-- Claim C9: a `Movie` whose `titulo_dublado` and `titulo_original` are
both `None` is rejected by `DataQualityChecker.check_movie`, whatever the
threshold and whatever every other field holds. -/
theorem c9_both_titles_none_rejected (thr : ℚ) (m : Movie)
    (h1 : m.titulo_dublado = none) (h2 : m.titulo_original = none) :
    check_movie thr m = false := by
  apply check_movie_false_of_mem (i := Issue.missingBothTitles)
  simp only [issuesFor, List.mem_append]
  refine Or.inl (Or.inl (Or.inl (Or.inl ?_)))
  simp [titleIssue, pyNotStr, h1, h2]

/-- Witness for C9: the all-`None` movie is rejected. -/
theorem c9_both_titles_none_rejected_witness :
    movieAllNone.titulo_dublado = none ∧ movieAllNone.titulo_original = none ∧
      check_movie (7 / 10) movieAllNone = false :=
  ⟨rfl, rfl, c9_both_titles_none_rejected (7 / 10) movieAllNone rfl rfl⟩

/-- Claim C8: `ano = 2031` is quality-rejected for every movie and every
threshold, while the pydantic schema (which bounds `ano` from below only,
at 1888) accepts the fully-filled `movie2031`; the two gates have
non-overlapping year bounds above 2030. -/
theorem c8_year_2031_schema_ok_quality_rejected (thr : ℚ) (m : Movie)
    (h : m.ano = some 2031) :
    check_movie thr m = false ∧
      schemaOk movie2031 = true ∧ movie2031.ano = some 2031 ∧
      check_movie (7 / 10) movie2031 = false := by
  have key : ∀ thr' : ℚ, ∀ m' : Movie, m'.ano = some 2031 → check_movie thr' m' = false := by
    intro thr' m' h'
    apply check_movie_false_of_mem (i := Issue.invalidYear)
    simp only [issuesFor, List.mem_append]
    refine Or.inl (Or.inr ?_)
    rw [h']
    simp [anoIssue]
  have hschema : schemaOk movie2031 = true := by
    simp only [schemaOk, movie2031]
    norm_num
  exact ⟨key thr m h, hschema, rfl, key (7 / 10) movie2031 rfl⟩

/-- Witness for C8, at `movie2031` itself. -/
theorem c8_year_2031_schema_ok_quality_rejected_witness :
    movie2031.ano = some 2031 ∧ check_movie (7 / 10) movie2031 = false :=
  ⟨rfl, (c8_year_2031_schema_ok_quality_rejected (7 / 10) movie2031 rfl).1⟩

/-- Claim C10: `check_movie` tests falsiness, not presence: two
empty-string (non-`None`) titles produce the "Missing both titles" issue
and reject the record, and an empty-string link produces the
"Missing link" issue. -/
theorem c10_empty_strings_count_as_missing (thr : ℚ) (m : Movie) :
    (m.titulo_dublado = some "" → m.titulo_original = some "" →
      Issue.missingBothTitles ∈ issuesFor thr m ∧ check_movie thr m = false) ∧
    (m.link = some "" →
      Issue.missingLink ∈ issuesFor thr m ∧ check_movie thr m = false) := by
  constructor
  · intro h1 h2
    have hmem : Issue.missingBothTitles ∈ issuesFor thr m := by
      simp only [issuesFor, List.mem_append]
      refine Or.inl (Or.inl (Or.inl (Or.inl ?_)))
      simp [titleIssue, pyNotStr, h1, h2]
    exact ⟨hmem, check_movie_false_of_mem hmem⟩
  · intro h
    have hmem : Issue.missingLink ∈ issuesFor thr m := by
      simp only [issuesFor, List.mem_append]
      refine Or.inl (Or.inl (Or.inl (Or.inr ?_)))
      simp [linkIssue, pyNotStr, h]
    exact ⟨hmem, check_movie_false_of_mem hmem⟩

/-- Witness for C10: the empty-titles, empty-link movie is rejected with
the "Missing both titles" issue. -/
theorem c10_empty_strings_count_as_missing_witness :
    Issue.missingBothTitles ∈ issuesFor (7 / 10) movieEmptyTitles ∧
      check_movie (7 / 10) movieEmptyTitles = false ∧
      Issue.missingLink ∈ issuesFor (7 / 10) movieEmptyTitles :=
  ⟨((c10_empty_strings_count_as_missing (7 / 10) movieEmptyTitles).1 rfl rfl).1,
   ((c10_empty_strings_count_as_missing (7 / 10) movieEmptyTitles).1 rfl rfl).2,
   ((c10_empty_strings_count_as_missing (7 / 10) movieEmptyTitles).2 rfl).1⟩

/-! ### Rating and year sentinels (claims C4, C5) -/

/-- Counterexample to claim C4: on a detail page whose rating anchor is
the literal `"???"` (and likewise the en dash), the comando.la spider's
record carries the numeric sentinel `-1`, not a null rating. -/
theorem c4_rating_sentinel_counterexample :
    spiderImdb [qqq] infos0 = some (PyV.vInt (-1)) ∧
      spiderImdb [[dashChar]] infos0 = some (PyV.vInt (-1)) ∧
      PyV.vInt (-1) ≠ PyV.vNone := by
  refine ⟨rfl, rfl, by simp⟩

/-- Claim C4 as amended: `parse_rating` (the gratis_torrent utils path)
maps `"???"` and an en dash to `None`; the comando.la spider instead
stores the numeric sentinel `-1` for the same rating values. -/
theorem c4_rating_sentinel_amended :
    parse_rating (some qqq) = none ∧
      parse_rating (some [dashChar]) = none ∧
      (∀ infos, spiderImdb [qqq] infos = some (PyV.vInt (-1))) ∧
      (∀ infos, spiderImdb [[dashChar]] infos = some (PyV.vInt (-1))) :=
  ⟨rfl, rfl, fun _ => rfl, fun _ => rfl⟩

/-- Witness for the amended C4, instantiating the spider at the concrete
token list `infos0`. -/
theorem c4_rating_sentinel_amended_witness :
    spiderImdb [qqq] infos0 = some (PyV.vInt (-1)) ∧
      spiderImdb [[dashChar]] infos0 = some (PyV.vInt (-1)) :=
  ⟨c4_rating_sentinel_amended.2.2.1 infos0, c4_rating_sentinel_amended.2.2.2 infos0⟩

/-- Counterexample to claim C5: when the chosen anchor value contains a
comma (a genre list leaking into the year position), the spider's record
stores the sentinel `-1` for the year, not a null. -/
theorem c5_year_comma_counterexample :
    spiderAno [genreLeak] = some (PyV.vInt (-1)) ∧ PyV.vInt (-1) ≠ PyV.vNone := by
  refine ⟨rfl, by simp⟩

/-- Claim C5 as amended: the extractor takes the second anchor value when
two exist and otherwise the first; a chosen value containing a comma makes
the intermediate year `None`, which the record then stores as the sentinel
`-1` (not a parse error and not a null); a comma-free chosen value is
converted with `int(value.replace(":", "").strip())`. -/
theorem c5_year_comma_amended :
    (∀ x, hasSub [','] x = true → spiderAno [x] = some (PyV.vInt (-1))) ∧
    (∀ x y rest, hasSub [','] y = true →
      spiderAno (x :: y :: rest) = some (PyV.vInt (-1))) ∧
    (∀ x, hasSub [','] x = false →
      spiderAno [x] = (pyIntParse (stripWS (x.filter (fun c => c != ':')))).map PyV.vInt) ∧
    (∀ x y rest, hasSub [','] y = false →
      spiderAno (x :: y :: rest) =
        (pyIntParse (stripWS (y.filter (fun c => c != ':')))).map PyV.vInt) := by
  refine ⟨?_, ?_, ?_, ?_⟩
  · intro x hx
    simp [spiderAno, spiderAnoChosen, hx]
  · intro x y rest hy
    simp [spiderAno, spiderAnoChosen, hy]
  · intro x hx
    simp [spiderAno, spiderAnoChosen, hx]
  · intro x y rest hy
    simp [spiderAno, spiderAnoChosen, hy]

/-- Witness for the amended C5, at the genre-leak value (comma) and at a
plain `": 1999"` anchor pair. -/
theorem c5_year_comma_amended_witness :
    hasSub [','] genreLeak = true ∧
      spiderAno [": 1999".toList, genreLeak] = some (PyV.vInt (-1)) ∧
      hasSub [','] (": 2001".toList) = false ∧
      spiderAno [": 1999".toList, ": 2001".toList] =
        (pyIntParse (stripWS ((": 2001".toList).filter (fun c => c != ':')))).map PyV.vInt :=
  ⟨rfl, (c5_year_comma_amended.2.1 (": 1999".toList) genreLeak [] rfl),
   rfl, (c5_year_comma_amended.2.2.2 (": 1999".toList) (": 2001".toList) [] rfl)⟩

/-! ### String-primitive lemmas (shared by claims C6 and C7) -/

/-- A digit character differs from any non-digit character. -/
theorem digit_ne {c : Char} (d : Char) (h : c.isDigit = true) (hd : d.isDigit = false) :
    c ≠ d := by
  intro e
  subst e
  rw [h] at hd
  exact Bool.noConfusion hd

/-- Whitespace characters are not digits. -/
theorem pyWS_not_digit {c : Char} (h : isPyWS c = true) : c.isDigit = false := by
  simp only [isPyWS, Bool.or_eq_true, beq_iff_eq] at h
  rcases h with ((((h | h) | h) | h) | h) | h <;> subst h <;> decide

/-- A digit character is not Python whitespace. -/
theorem digit_not_pyWS {c : Char} (h : c.isDigit = true) : isPyWS c = false := by
  cases hw : isPyWS c
  · rfl
  · rw [pyWS_not_digit hw] at h
    exact absurd h (Bool.false_ne_true)

/-- Lemma: `dropWhile` keeps a list whose head fails the predicate. -/
theorem dropWhile_cons_false {p : Char → Bool} {c : Char} {l : List Char}
    (h : p c = false) : (c :: l).dropWhile p = c :: l := by
  simp [List.dropWhile_cons, h]

/-- Lemma: `lstrip` keeps a list whose head is not whitespace. -/
theorem lstripWS_cons {c : Char} {l : List Char} (h : isPyWS c = false) :
    lstripWS (c :: l) = c :: l := dropWhile_cons_false h

/-- Lemma: `rstrip` keeps a list whose last element is not whitespace. -/
theorem rstripWS_append_one {l : List Char} {d : Char} (h : isPyWS d = false) :
    rstripWS (l ++ [d]) = l ++ [d] := by
  simp [rstripWS, List.dropWhile_cons, h]

/-- Lemma: `rstrip` removes a trailing space. -/
theorem rstripWS_append_space (l : List Char) : rstripWS (l ++ [' ']) = rstripWS l := by
  simp [rstripWS, List.dropWhile_cons, show isPyWS ' ' = true from by decide]

/-- Lemma: `strip` removes a trailing space. -/
theorem stripWS_append_space (l : List Char) : stripWS (l ++ [' ']) = stripWS l := by
  simp [stripWS, rstripWS_append_space]

/-- Lemma: `strip` keeps a list whose two ends are not whitespace. -/
theorem stripWS_shape {c d : Char} (m : List Char) (hc : isPyWS c = false)
    (hd : isPyWS d = false) : stripWS (c :: m ++ [d]) = c :: m ++ [d] := by
  have h1 : rstripWS ((c :: m) ++ [d]) = (c :: m) ++ [d] := rstripWS_append_one hd
  show lstripWS (rstripWS ((c :: m) ++ [d])) = (c :: m) ++ [d]
  rw [h1]
  exact lstripWS_cons hc

/-- Lemma: `strip` keeps a non-whitespace singleton. -/
theorem stripWS_single {c : Char} (h : isPyWS c = false) : stripWS [c] = [c] := by
  have h1 : rstripWS ([] ++ [c]) = [] ++ [c] := rstripWS_append_one h
  show lstripWS (rstripWS ([] ++ [c])) = [c]
  rw [h1]
  exact lstripWS_cons h

/-- Lemma: `strip` keeps any non-empty list without whitespace. -/
theorem stripWS_eq_self_of_nonWS {x : List Char} (hne : x ≠ [])
    (h : ∀ c ∈ x, isPyWS c = false) : stripWS x = x := by
  obtain ⟨c, t, rfl⟩ := List.exists_cons_of_ne_nil hne
  rcases List.eq_nil_or_concat t with rfl | ⟨m, d, rfl⟩
  · exact stripWS_single (h c (by simp))
  · rw [List.concat_eq_append]
    exact stripWS_shape m (h c (by simp)) (h d (by simp))

/-- Lemma: `startswith` fails when the heads differ. -/
theorem isLead_cons_ne {p c : Char} {ps cs : List Char} (h : c ≠ p) :
    isLead (p :: ps) (c :: cs) = false := by
  have hb : (p == c) = false := beq_eq_false_iff_ne.mpr (fun e => h e.symm)
  simp [isLead, hb]

/-- Substring containment is preserved by prepending. -/
theorem hasSub_append_right (pat l m : List Char) (h : hasSub pat m = true) :
    hasSub pat (l ++ m) = true := by
  induction l with
  | nil => simpa using h
  | cons c t ih => simp [hasSub, ih]

/-- A pattern whose head never occurs in the list is not a substring. -/
theorem hasSub_not_head {p : Char} {pat l : List Char} (h : ∀ c ∈ l, c ≠ p) :
    hasSub (p :: pat) l = false := by
  induction l with
  | nil => rfl
  | cons c t ih =>
    have hc : c ≠ p := h c (by simp)
    have ht : ∀ c ∈ t, c ≠ p := fun x hx => h x (by simp [hx])
    simp [hasSub, isLead_cons_ne hc, ih ht]

/-- Lemma: `rmSubGo` on the empty list, any fuel. -/
theorem rmSubGo_nil (p : Char) (ps : List Char) (f : Nat) : rmSubGo p ps f [] = [] := by
  cases f <;> rfl

/-- The fuel of `rmSubGo` is irrelevant once it bounds the list length. -/
theorem rmSubGo_fuel (p : Char) (ps : List Char) :
    ∀ f₁ : Nat, ∀ l : List Char, ∀ f₂ : Nat,
      l.length ≤ f₁ → l.length ≤ f₂ → rmSubGo p ps f₁ l = rmSubGo p ps f₂ l := by
  intro f₁
  induction f₁ with
  | zero =>
    intro l f₂ h1 _
    have : l = [] := List.eq_nil_of_length_eq_zero (Nat.le_zero.mp h1)
    subst this
    simp [rmSubGo_nil]
  | succ a ih =>
    intro l f₂ h1 h2
    cases l with
    | nil => simp [rmSubGo_nil]
    | cons c rest =>
      cases f₂ with
      | zero =>
        simp only [List.length_cons] at h2
        omega
      | succ b =>
        simp only [rmSubGo]
        simp only [List.length_cons] at h1 h2
        by_cases hl : isLead (p :: ps) (c :: rest) = true
        · simp only [hl, if_true]
          apply ih
          · have := List.length_drop ps.length rest
            omega
          · have := List.length_drop ps.length rest
            omega
        · simp only [Bool.not_eq_true] at hl
          simp only [hl, Bool.false_eq_true, if_false]
          have := ih rest b (by omega) (by omega)
          rw [this]

/-- Lemma: `removeSubstr` walks past a character that differs from the pattern
head. -/
theorem removeSubstr_cons_ne {p : Char} {ps : List Char} {c : Char} {l : List Char}
    (h : c ≠ p) : removeSubstr p ps (c :: l) = c :: removeSubstr p ps l := by
  show rmSubGo p ps (c :: l).length (c :: l) = c :: rmSubGo p ps l.length l
  simp only [List.length_cons, rmSubGo, isLead_cons_ne h, Bool.false_eq_true, if_false]

/-- Lemma: `removeSubstr` distributes over an append whose left part avoids the
pattern head. -/
theorem removeSubstr_append_notMem {p : Char} {ps : List Char} (x m : List Char)
    (h : ∀ c ∈ x, c ≠ p) : removeSubstr p ps (x ++ m) = x ++ removeSubstr p ps m := by
  induction x with
  | nil => simp
  | cons c t ih =>
    have hc : c ≠ p := h c (by simp)
    have ht : ∀ y ∈ t, y ≠ p := fun y hy => h y (by simp [hy])
    show removeSubstr p ps (c :: (t ++ m)) = c :: (t ++ removeSubstr p ps m)
    rw [removeSubstr_cons_ne hc, ih ht]

/-- Lemma: `removeSubstr` keeps a list that avoids the pattern head. -/
theorem removeSubstr_eq_self {p : Char} {ps : List Char} {l : List Char}
    (h : ∀ c ∈ l, c ≠ p) : removeSubstr p ps l = l := by
  have h2 : removeSubstr p ps (l ++ []) = l ++ removeSubstr p ps [] :=
    removeSubstr_append_notMem l [] h
  simpa [removeSubstr, rmSubGo_nil] using h2

/-- Deleting every occurrence of a single-character pattern steps over a
leading occurrence. -/
theorem removeSubstr_cons_self {p : Char} (l : List Char) :
    removeSubstr p [] (p :: l) = removeSubstr p [] l := by
  have hl : isLead [p] (p :: l) = true := by simp [isLead]
  show rmSubGo p [] (p :: l).length (p :: l) = rmSubGo p [] l.length l
  simp only [List.length_cons, rmSubGo, hl, if_true, List.length_nil, List.drop_zero]

/-- Lemma: `takeWhile` passes through a block that satisfies the predicate. -/
theorem takeWhile_append_of_all {p : Char → Bool} (x y : List Char)
    (h : ∀ c ∈ x, p c = true) : (x ++ y).takeWhile p = x ++ y.takeWhile p := by
  induction x with
  | nil => simp
  | cons c t ih =>
    have hc : p c = true := h c (by simp)
    have ht : ∀ d ∈ t, p d = true := fun d hd => h d (by simp [hd])
    simp [List.takeWhile_cons, hc, ih ht]

/-- Python `"a b".split(" ")` on exactly one separator: `[x, y]` when
neither side contains a space. -/
theorem splitOn_space_pair (x y : List Char) (hx : ∀ c ∈ x, c ≠ ' ')
    (hy : ∀ c ∈ y, c ≠ ' ') : (x ++ ' ' :: y).splitOn ' ' = [x, y] := by
  have hy' : y.splitOnP (· == ' ') = [y] :=
    List.splitOnP_eq_single _ _ (fun c hc => by simp [hy c hc])
  suffices hgen : ∀ z : List Char, (∀ c ∈ z, c ≠ ' ') →
      (z ++ ' ' :: y).splitOnP (· == ' ') = [z, y] by
    have := hgen x hx
    simpa [List.splitOn] using this
  intro z hz
  induction z with
  | nil =>
    rw [List.nil_append, List.splitOnP_cons]
    simp [hy']
  | cons c t ih =>
    have hc : c ≠ ' ' := hz c (by simp)
    have ht : ∀ d ∈ t, d ≠ ' ' := fun d hd => hz d (by simp [hd])
    show ((c :: (t ++ ' ' :: y)).splitOnP (· == ' ')) = [c :: t, y]
    rw [List.splitOnP_cons]
    have hcb : (c == ' ') = false := beq_eq_false_iff_ne.mpr hc
    rw [hcb]
    show ((t ++ ' ' :: y).splitOnP (· == ' ')).modifyHead (List.cons c) = [c :: t, y]
    rw [ih ht]
    rfl

/-- Python `int(...)` on a non-empty all-digit string yields its decimal
value. -/
theorem pyIntParse_digits {x : List Char} (hne : x ≠ [])
    (h : ∀ c ∈ x, c.isDigit = true) : pyIntParse x = some ((digitsVal x : Nat) : Int) := by
  have hs : stripWS x = x :=
    stripWS_eq_self_of_nonWS hne (fun c hc => digit_not_pyWS (h c hc))
  obtain ⟨c, t, rfl⟩ := List.exists_cons_of_ne_nil hne
  have hc := h c (by simp)
  have h1 : ¬((c :: t).head? = some '-') := by
    simp only [List.head?_cons, Option.some.injEq]
    exact digit_ne '-' hc (by decide)
  have h2 : ¬((c :: t).head? = some '+') := by
    simp only [List.head?_cons, Option.some.injEq]
    exact digit_ne '+' hc (by decide)
  have hall : (c :: t).all Char.isDigit = true := List.all_eq_true.mpr h
  simp only [pyIntParse, hs, if_neg h1, if_neg h2, intCore,
    if_pos (And.intro (List.cons_ne_nil c t) hall), Option.map_some']
  rfl

/-! ### Size conversion (claim C7) -/

/-- Claim C7: for a decimal size literal `X`, `GB_to_MB` maps `"X GB"` to
`X * 1024`, and both `"X MB"` and the bare `"X"` to `X` unchanged (`X` is
the parsed value `q`), so all stored sizes share one unit. -/
theorem c7_GB_to_MB (x : List Char) (q : ℚ) (hne : x ≠ [])
    (hch : ∀ c ∈ x, c.isDigit = true ∨ c = '.')
    (hq : pyFloatParse x = some q) :
    GB_to_MB (Sum.inr (x ++ [' ', 'G', 'B'])) = some (q * 1024) ∧
      GB_to_MB (Sum.inr (x ++ [' ', 'M', 'B'])) = some q ∧
      GB_to_MB (Sum.inr x) = some q := by
  have hxG : ∀ c ∈ x, c ≠ 'G' := by
    intro c hc
    rcases hch c hc with hd | hd
    · exact digit_ne 'G' hd (by decide)
    · subst hd; decide
  have hxM : ∀ c ∈ x, c ≠ 'M' := by
    intro c hc
    rcases hch c hc with hd | hd
    · exact digit_ne 'M' hd (by decide)
    · subst hd; decide
  have hWS : ∀ c ∈ x, isPyWS c = false := by
    intro c hc
    rcases hch c hc with hd | hd
    · exact digit_not_pyWS hd
    · subst hd; decide
  have hxSelf : stripWS x = x := stripWS_eq_self_of_nonWS hne hWS
  have hxSp : stripWS (x ++ [' ']) = x := by rw [stripWS_append_space, hxSelf]
  refine ⟨?_, ?_, ?_⟩
  · have hsub : hasSub ['G', 'B'] (x ++ [' ', 'G', 'B']) = true := by
      have h0 : hasSub ['G', 'B'] ['G', 'B'] = true := by decide
      have := hasSub_append_right ['G', 'B'] (x ++ [' ']) ['G', 'B'] h0
      simpa using this
    have hxG' : ∀ c ∈ x ++ [' '], c ≠ 'G' := by
      intro c hc
      rcases List.mem_append.mp hc with hc | hc
      · exact hxG c hc
      · simp at hc; subst hc; decide
    have hrem : removeSubstr 'G' ['B'] (x ++ [' ', 'G', 'B']) = x ++ [' '] := by
      have h1 : removeSubstr 'G' ['B'] ((x ++ [' ']) ++ ['G', 'B']) =
          (x ++ [' ']) ++ removeSubstr 'G' ['B'] ['G', 'B'] :=
        removeSubstr_append_notMem (x ++ [' ']) ['G', 'B'] hxG'
      have h2 : removeSubstr 'G' ['B'] ['G', 'B'] = [] := by decide
      rw [h2] at h1
      simpa using h1
    simp only [GB_to_MB, if_pos hsub, hrem, hxSp, hq, Option.map_some']
  · have hnsub : hasSub ['G', 'B'] (x ++ [' ', 'M', 'B']) = false := by
      apply hasSub_not_head
      intro c hc
      rcases List.mem_append.mp hc with hc | hc
      · exact hxG c hc
      · simp at hc
        rcases hc with hc | hc | hc <;> (subst hc; decide)
    have hxM' : ∀ c ∈ x ++ [' '], c ≠ 'M' := by
      intro c hc
      rcases List.mem_append.mp hc with hc | hc
      · exact hxM c hc
      · simp at hc; subst hc; decide
    have hrem : removeSubstr 'M' ['B'] (x ++ [' ', 'M', 'B']) = x ++ [' '] := by
      have h1 : removeSubstr 'M' ['B'] ((x ++ [' ']) ++ ['M', 'B']) =
          (x ++ [' ']) ++ removeSubstr 'M' ['B'] ['M', 'B'] :=
        removeSubstr_append_notMem (x ++ [' ']) ['M', 'B'] hxM'
      have h2 : removeSubstr 'M' ['B'] ['M', 'B'] = [] := by decide
      rw [h2] at h1
      simpa using h1
    have hcond : ¬(hasSub ['G', 'B'] (x ++ [' ', 'M', 'B']) = true) := by
      rw [hnsub]
      exact Bool.false_ne_true
    simp only [GB_to_MB, if_neg hcond, hrem, hxSp, hq]
  · have hnsub : hasSub ['G', 'B'] x = false := hasSub_not_head hxG
    have hrem : removeSubstr 'M' ['B'] x = x := removeSubstr_eq_self hxM
    have hcond : ¬(hasSub ['G', 'B'] x = true) := by
      rw [hnsub]
      exact Bool.false_ne_true
    simp only [GB_to_MB, if_neg hcond, hrem, hxSelf, hq]

/-- Witness for C7, at `"2.5 GB"`, `"2.5 MB"` and `"2.5"`. -/
theorem c7_GB_to_MB_witness :
    GB_to_MB (Sum.inr ("2.5 GB".toList)) = some ((5 : ℚ) / 2 * 1024) ∧
      GB_to_MB (Sum.inr ("2.5 MB".toList)) = some ((5 : ℚ) / 2) ∧
      GB_to_MB (Sum.inr ("2.5".toList)) = some ((5 : ℚ) / 2) := by
  have hq0 : pyFloatParse ("2.5".toList) =
      some ((digitsVal ['2'] : ℚ) + (digitsVal ['5'] : ℚ) / (10 : ℚ) ^ (1 : Nat)) := rfl
  have e1 : (digitsVal ['2'] : ℚ) = 2 := by
    rw [show digitsVal ['2'] = 2 from by decide]
    norm_num
  have e2 : (digitsVal ['5'] : ℚ) = 5 := by
    rw [show digitsVal ['5'] = 5 from by decide]
    norm_num
  have hq : pyFloatParse ("2.5".toList) = some ((5 : ℚ) / 2) := by
    rw [hq0, e1, e2]
    norm_num
  exact c7_GB_to_MB ("2.5".toList) ((5 : ℚ) / 2) (by decide) (by decide) hq

/-! ### Duration parsing (claim C6) -/

/-- A character in a literal list differs from `d` when every listed
character does. -/
theorem ne_of_mem_lits {c d : Char} (lits : List Char) (hc : c ∈ lits)
    (hd : lits.all (fun x => x != d) = true) : c ≠ d :=
  bne_iff_ne.mp (List.all_eq_true.mp hd c hc)

/-- Character inventory of the `"N Min."` shape. -/
theorem SP_chars {b : List Char} (hdb : ∀ c ∈ b, c.isDigit = true) :
    ∀ c ∈ b ++ (' ' :: 'M' :: minTail),
      c.isDigit = true ∨ c ∈ [' ', 'M', 'i', 'n', '.'] := by
  intro c hc
  simp only [List.mem_append, List.mem_cons] at hc
  rcases hc with hc | hc | hc | hc
  · exact Or.inl (hdb c hc)
  · subst hc; right; decide
  · subst hc; right; decide
  · right
    have hsub : minTail ⊆ [' ', 'M', 'i', 'n', '.'] := by decide
    exact hsub hc

/-- Character inventory of the `"Ah B Min."` shape. -/
theorem SH_chars {a b : List Char} (hda : ∀ c ∈ a, c.isDigit = true)
    (hdb : ∀ c ∈ b, c.isDigit = true) :
    ∀ c ∈ a ++ ('h' :: ' ' :: (b ++ (' ' :: 'M' :: minTail))),
      c.isDigit = true ∨ c ∈ ['h', ' ', 'M', 'i', 'n', '.'] := by
  intro c hc
  simp only [List.mem_append, List.mem_cons] at hc
  rcases hc with hc | hc | hc | hc
  · exact Or.inl (hda c hc)
  · subst hc; right; decide
  · subst hc; right; decide
  · rcases SP_chars hdb c (by simpa [List.mem_append, List.mem_cons] using hc) with h | h
    · exact Or.inl h
    · exact Or.inr (List.mem_cons_of_mem _ h)

/-- Lemma: `strip` fixes the `"Ah B Min."` shape (digit head, `'.'` last). -/
theorem stripWS_SH {a b : List Char} (ha : a ≠ [])
    (hda : ∀ c ∈ a, c.isDigit = true) :
    stripWS (a ++ ('h' :: ' ' :: (b ++ (' ' :: 'M' :: minTail)))) =
      a ++ ('h' :: ' ' :: (b ++ (' ' :: 'M' :: minTail))) := by
  obtain ⟨a0, a', rfl⟩ := List.exists_cons_of_ne_nil ha
  have hshape : (a0 :: a') ++ ('h' :: ' ' :: (b ++ (' ' :: 'M' :: minTail))) =
      a0 :: (a' ++ ('h' :: ' ' :: (b ++ (' ' :: 'M' :: ['i', 'n'])))) ++ ['.'] := by
    simp [minTail]
  rw [hshape]
  exact stripWS_shape _ (digit_not_pyWS (hda a0 (by simp))) (by decide)

/-- Lemma: `strip` fixes the `"A B Min."` shape left after deleting `"h"`. -/
theorem stripWS_ABM {a b : List Char} (ha : a ≠ [])
    (hda : ∀ c ∈ a, c.isDigit = true) :
    stripWS (a ++ (' ' :: (b ++ (' ' :: 'M' :: minTail)))) =
      a ++ (' ' :: (b ++ (' ' :: 'M' :: minTail))) := by
  obtain ⟨a0, a', rfl⟩ := List.exists_cons_of_ne_nil ha
  have hshape : (a0 :: a') ++ (' ' :: (b ++ (' ' :: 'M' :: minTail))) =
      a0 :: (a' ++ (' ' :: (b ++ (' ' :: 'M' :: ['i', 'n'])))) ++ ['.'] := by
    simp [minTail]
  rw [hshape]
  exact stripWS_shape _ (digit_not_pyWS (hda a0 (by simp))) (by decide)

/-- Lemma: `strip` of `"A B"` (digits around one space) is the identity. -/
theorem strip_digit_space_digit (a b : List Char) (ha : a ≠ []) (hb : b ≠ [])
    (hda : ∀ c ∈ a, c.isDigit = true) (hdb : ∀ c ∈ b, c.isDigit = true) :
    stripWS (a ++ (' ' :: b)) = a ++ (' ' :: b) := by
  obtain ⟨a0, a', rfl⟩ := List.exists_cons_of_ne_nil ha
  rcases List.eq_nil_or_concat b with rfl | ⟨m, d, rfl⟩
  · exact absurd rfl hb
  · rw [List.concat_eq_append]
    have hshape : (a0 :: a') ++ (' ' :: (m ++ [d])) =
        a0 :: (a' ++ (' ' :: m)) ++ [d] := by simp
    rw [hshape]
    refine stripWS_shape _ (digit_not_pyWS (hda a0 (by simp))) ?_
    exact digit_not_pyWS (hdb d (by simp))

/-- Deleting `"Min."` from an `"… Min."` tail whose front avoids `'M'`. -/
theorem removeMin_tail (x : List Char) (hx : ∀ c ∈ x, c ≠ 'M') :
    removeSubstr 'M' minTail (x ++ (' ' :: 'M' :: minTail)) = x ++ [' '] := by
  have h1 : removeSubstr 'M' minTail ((x ++ [' ']) ++ 'M' :: minTail) =
      (x ++ [' ']) ++ removeSubstr 'M' minTail ('M' :: minTail) := by
    refine removeSubstr_append_notMem (x ++ [' ']) ('M' :: minTail) ?_
    intro c hc
    rcases List.mem_append.mp hc with hc | hc
    · exact hx c hc
    · simp at hc; subst hc; decide
  have h2 : removeSubstr 'M' minTail ('M' :: minTail) = [] := by decide
  rw [h2] at h1
  simpa using h1

/-- The `"h"` branch of `splitDuracaoCore` on the canonical
`"Ah B Min."` shape. -/
theorem splitDuracaoCore_h_shape (a b : List Char) (ha : a ≠ []) (hb : b ≠ [])
    (hda : ∀ c ∈ a, c.isDigit = true) (hdb : ∀ c ∈ b, c.isDigit = true) :
    splitDuracaoCore (a ++ ('h' :: ' ' :: (b ++ (' ' :: 'M' :: minTail)))) =
      some ((digitsVal a : Int) * 60 + (digitsVal b : Int)) := by
  have haH : ∀ c ∈ a, c ≠ 'h' := fun c hc => digit_ne 'h' (hda c hc) (by decide)
  have hHas : hasSub ['h'] (a ++ ('h' :: ' ' :: (b ++ (' ' :: 'M' :: minTail)))) = true := by
    refine hasSub_append_right _ a _ ?_
    simp [hasSub, isLead]
  have hremH : removeSubstr 'h' [] (a ++ ('h' :: ' ' :: (b ++ (' ' :: 'M' :: minTail)))) =
      a ++ (' ' :: (b ++ (' ' :: 'M' :: minTail))) := by
    rw [removeSubstr_append_notMem a _ haH, removeSubstr_cons_self]
    congr 1
    refine removeSubstr_eq_self ?_
    intro c hc
    rcases List.mem_cons.mp hc with hc | hc
    · subst hc; decide
    · rcases SP_chars hdb c hc with h | h
      · exact digit_ne 'h' h (by decide)
      · exact ne_of_mem_lits _ h (by decide)
  have hstrip1 := stripWS_ABM (b := b) ha hda
  have hxAB : ∀ c ∈ a ++ (' ' :: b), c ≠ 'M' := by
    intro c hc
    simp only [List.mem_append, List.mem_cons] at hc
    rcases hc with hc | hc | hc
    · exact digit_ne 'M' (hda c hc) (by decide)
    · subst hc; decide
    · exact digit_ne 'M' (hdb c hc) (by decide)
  have hremM : removeSubstr 'M' minTail (a ++ (' ' :: (b ++ (' ' :: 'M' :: minTail)))) =
      a ++ (' ' :: (b ++ [' '])) := by
    have h := removeMin_tail (a ++ (' ' :: b)) hxAB
    simp only [List.append_assoc, List.cons_append] at h
    exact h
  have hstrip2 : stripWS (a ++ (' ' :: (b ++ [' ']))) = a ++ (' ' :: b) := by
    have h := stripWS_append_space (a ++ (' ' :: b))
    simp only [List.append_assoc, List.cons_append] at h
    rw [h]
    exact strip_digit_space_digit a b ha hb hda hdb
  have hsplit : (a ++ (' ' :: b)).splitOn ' ' = [a, b] :=
    splitOn_space_pair a b
      (fun c hc => digit_ne ' ' (hda c hc) (by decide))
      (fun c hc => digit_ne ' ' (hdb c hc) (by decide))
  simp only [splitDuracaoCore, if_pos hHas, hremH, hstrip1, hremM, hstrip2, hsplit]
  simp [pyIntParse_digits ha hda, pyIntParse_digits hb hdb]

/-- The plain branch of `splitDuracaoCore` on the canonical `"N Min."`
shape. -/
theorem splitDuracaoCore_plain_shape (b : List Char) (hb : b ≠ [])
    (hdb : ∀ c ∈ b, c.isDigit = true) :
    splitDuracaoCore (b ++ (' ' :: 'M' :: minTail)) = some ((digitsVal b : Int)) := by
  have hbM : ∀ c ∈ b, c ≠ 'M' := fun c hc => digit_ne 'M' (hdb c hc) (by decide)
  have hNoH : hasSub ['h'] (b ++ (' ' :: 'M' :: minTail)) = false := by
    apply hasSub_not_head
    intro c hc
    rcases SP_chars hdb c hc with h | h
    · exact digit_ne 'h' h (by decide)
    · exact ne_of_mem_lits _ h (by decide)
  have hcond : ¬(hasSub ['h'] (b ++ (' ' :: 'M' :: minTail)) = true) := by
    rw [hNoH]
    exact Bool.false_ne_true
  have hremM : removeSubstr 'M' minTail (b ++ (' ' :: 'M' :: minTail)) = b ++ [' '] :=
    removeMin_tail b hbM
  have hstrip : stripWS (b ++ [' ']) = b := by
    rw [stripWS_append_space]
    exact stripWS_eq_self_of_nonWS hb (fun c hc => digit_not_pyWS (hdb c hc))
  simp only [splitDuracaoCore, if_neg hcond, hremM, hstrip, pyIntParse_digits hb hdb]

/-- Claim C6: `split_duracao` maps `"Ah B Min."` to `A * 60 + B`, a plain
`"N Min."` to `N`, and parses only the first alternative of a
pipe-separated list (`A`, `B`, `N` are the decimal values of the digit
blocks `a`, `b`). -/
theorem c6_split_duracao (a b rest : List Char) (ha : a ≠ []) (hb : b ≠ [])
    (hda : ∀ c ∈ a, c.isDigit = true) (hdb : ∀ c ∈ b, c.isDigit = true) :
    split_duracao (a ++ ('h' :: ' ' :: (b ++ (' ' :: 'M' :: minTail)))) =
      some ((digitsVal a : Int) * 60 + (digitsVal b : Int)) ∧
    split_duracao (b ++ (' ' :: 'M' :: minTail)) = some ((digitsVal b : Int)) ∧
    split_duracao ((a ++ ('h' :: ' ' :: (b ++ (' ' :: 'M' :: minTail)))) ++
        (' ' :: '|' :: rest)) =
      some ((digitsVal a : Int) * 60 + (digitsVal b : Int)) := by
  have hS_no_pipe : ∀ c ∈ a ++ ('h' :: ' ' :: (b ++ (' ' :: 'M' :: minTail))), c ≠ '|' := by
    intro c hc
    rcases SH_chars hda hdb c hc with h | h
    · exact digit_ne '|' h (by decide)
    · exact ne_of_mem_lits _ h (by decide)
  have hP_no_pipe : ∀ c ∈ b ++ (' ' :: 'M' :: minTail), c ≠ '|' := by
    intro c hc
    rcases SP_chars hdb c hc with h | h
    · exact digit_ne '|' h (by decide)
    · exact ne_of_mem_lits _ h (by decide)
  refine ⟨?_, ?_, ?_⟩
  · have hcond : ¬(hasSub ['|'] (a ++ ('h' :: ' ' :: (b ++ (' ' :: 'M' :: minTail)))) = true) := by
      rw [hasSub_not_head hS_no_pipe]
      exact Bool.false_ne_true
    rw [split_duracao, if_neg hcond]
    exact splitDuracaoCore_h_shape a b ha hb hda hdb
  · have hcond : ¬(hasSub ['|'] (b ++ (' ' :: 'M' :: minTail)) = true) := by
      rw [hasSub_not_head hP_no_pipe]
      exact Bool.false_ne_true
    rw [split_duracao, if_neg hcond]
    exact splitDuracaoCore_plain_shape b hb hdb
  · have hHasPipe :
        hasSub ['|'] ((a ++ ('h' :: ' ' :: (b ++ (' ' :: 'M' :: minTail)))) ++
          (' ' :: '|' :: rest)) = true := by
      have h0 : hasSub ['|'] ('|' :: rest) = true := by simp [hasSub, isLead]
      have h1 := hasSub_append_right ['|']
        ((a ++ ('h' :: ' ' :: (b ++ (' ' :: 'M' :: minTail)))) ++ [' ']) ('|' :: rest) h0
      simpa using h1
    have htake :
        (((a ++ ('h' :: ' ' :: (b ++ (' ' :: 'M' :: minTail)))) ++
            (' ' :: '|' :: rest)).takeWhile (fun c => c != '|')) =
          (a ++ ('h' :: ' ' :: (b ++ (' ' :: 'M' :: minTail)))) ++ [' '] := by
      have hall : ∀ c ∈ (a ++ ('h' :: ' ' :: (b ++ (' ' :: 'M' :: minTail)))) ++ [' '],
          (c != '|') = true := by
        intro c hc
        rcases List.mem_append.mp hc with hc | hc
        · exact bne_iff_ne.mpr (hS_no_pipe c hc)
        · simp at hc; subst hc; decide
      have h1 := takeWhile_append_of_all
        ((a ++ ('h' :: ' ' :: (b ++ (' ' :: 'M' :: minTail)))) ++ [' ']) ('|' :: rest) hall
      have h2 : (('|' :: rest).takeWhile (fun c => c != '|')) = [] := by
        simp [List.takeWhile_cons]
      rw [h2, List.append_nil] at h1
      simpa using h1
    have hstrip : stripWS ((a ++ ('h' :: ' ' :: (b ++ (' ' :: 'M' :: minTail)))) ++ [' ']) =
        a ++ ('h' :: ' ' :: (b ++ (' ' :: 'M' :: minTail))) := by
      rw [stripWS_append_space]
      exact stripWS_SH ha hda
    rw [split_duracao, if_pos hHasPipe, htake, hstrip]
    exact splitDuracaoCore_h_shape a b ha hb hda hdb

/-- Witness for C6, at `"1h 30 Min."`, `"136 Min."` and
`"1h 30 Min. | 1h 40 Min."`. -/
theorem c6_split_duracao_witness :
    split_duracao ("1h 30 Min.".toList) = some 90 ∧
      split_duracao ("136 Min.".toList) = some 136 ∧
      split_duracao ("1h 30 Min. | 1h 40 Min.".toList) = some 90 := by
  have h1 := c6_split_duracao ['1'] ['3', '0'] (" 1h 40 Min.".toList)
    (by decide) (by decide) (by decide) (by decide)
  have h2 := c6_split_duracao ['1'] ['1', '3', '6'] []
    (by decide) (by decide) (by decide) (by decide)
  have e1 : digitsVal ['1'] = 1 := by decide
  have e30 : digitsVal ['3', '0'] = 30 := by decide
  have e136 : digitsVal ['1', '3', '6'] = 136 := by decide
  refine ⟨?_, ?_, ?_⟩
  · have h := h1.1
    rw [e1, e30] at h
    norm_num at h
    exact h
  · have h := h2.2.1
    rw [e136] at h
    exact h
  · have h := h1.2.2
    rw [e1, e30] at h
    norm_num at h
    exact h

/-! ### Link collection (claim C3) -/

/-- Theorem for the C3 code bug: no enumeration a `set` can provide
reproduces first-seen-order deduplication on every page, because a `set`
retains no insertion order — the two pages below have the same link set
but different first-seen orders, while `extract.py`'s
`collect_movie_links` (via `dict.fromkeys`) distinguishes them.  The
`http_client.py` variant used by both scrapers therefore cannot satisfy
its own "preserving order" contract. -/
theorem c3_set_dedup_cannot_preserve_order (pyset : List String → List String)
    (hp : setEnumOrder pyset) :
    ¬(∀ page : List (Option String),
        collect_movie_links_http pyset page = collect_movie_links_extract page) := by
  intro h
  have h₁ := h [some "a", some "b", some "a", some "b"]
  have h₂ := h [some "b", some "a", some "b", some "a"]
  have hmem : ∀ x : String,
      x ∈ (["a", "b", "a", "b"] : List String) ↔ x ∈ (["b", "a", "b", "a"] : List String) := by
    intro x
    simp only [List.mem_cons, List.not_mem_nil, or_false]
    tauto
  have hpq : pyset ["a", "b", "a", "b"] = pyset ["b", "a", "b", "a"] := hp _ _ hmem
  have e₁ : collect_movie_links_http pyset [some "a", some "b", some "a", some "b"] =
      pyset ["a", "b", "a", "b"] := rfl
  have e₂ : collect_movie_links_http pyset [some "b", some "a", some "b", some "a"] =
      pyset ["b", "a", "b", "a"] := rfl
  have d₁ : collect_movie_links_extract [some "a", some "b", some "a", some "b"] =
      ["a", "b"] := by decide
  have d₂ : collect_movie_links_extract [some "b", some "a", some "b", some "a"] =
      ["b", "a"] := by decide
  rw [e₁, d₁] at h₁
  rw [e₂, d₂, ← hpq, h₁] at h₂
  exact absurd h₂ (by decide)

/-- Witness for C3's theorem: a concrete order oracle satisfying
`setEnumOrder` (one that ignores its argument entirely, as extreme a
loss of insertion order as a hash table allows). -/
theorem c3_set_dedup_cannot_preserve_order_witness :
    ¬(∀ page : List (Option String),
        collect_movie_links_http (fun _ => []) page = collect_movie_links_extract page) :=
  c3_set_dedup_cannot_preserve_order (fun _ => []) (fun _ _ _ => rfl)

/-! ### Load pipeline (claims C1, C2) -/

/-- Claim C2: in every run, whatever fails, `truncate_staging_table` is
invoked only when both the staging load and the merge succeeded; after a
merge failure the run raises, staging still holds the whole batch, and
truncation was never invoked; after a staging-load failure neither the
merge nor the truncation is invoked; a fully successful run returns the
merged table with staging truncated; and the invocation trace is always a
prefix-ordered pipeline in which truncation, when present, comes strictly
after the merge — never before. -/
theorem c2_truncate_only_after_merge {α : Type} (stageOk mergeOk truncOk : Bool)
    (st : BQState α) (movies : List (BQRow α)) (now : Int) :
    (LoadStep.truncateStep ∈ (load_movies_to_bigquery stageOk mergeOk truncOk st movies now).2.2 →
      stageOk = true ∧ mergeOk = true) ∧
    (stageOk = true → mergeOk = false →
      LoadStep.truncateStep ∉ (load_movies_to_bigquery stageOk mergeOk truncOk st movies now).2.2 ∧
      (load_movies_to_bigquery stageOk mergeOk truncOk st movies now).2.1.staging = movies ∧
      (load_movies_to_bigquery stageOk mergeOk truncOk st movies now).1 = Except.error ()) ∧
    (stageOk = false →
      LoadStep.truncateStep ∉ (load_movies_to_bigquery stageOk mergeOk truncOk st movies now).2.2 ∧
      LoadStep.mergeStep ∉ (load_movies_to_bigquery stageOk mergeOk truncOk st movies now).2.2) ∧
    (stageOk = true → mergeOk = true → truncOk = true →
      (load_movies_to_bigquery stageOk mergeOk truncOk st movies now).1 =
        Except.ok (BQState.mk (mergeTables st.main movies now) []) ∧
      (load_movies_to_bigquery stageOk mergeOk truncOk st movies now).2.1.staging = []) ∧
    ((load_movies_to_bigquery stageOk mergeOk truncOk st movies now).2.2 =
        [LoadStep.setup, LoadStep.stageLoad] ∨
      (load_movies_to_bigquery stageOk mergeOk truncOk st movies now).2.2 =
        [LoadStep.setup, LoadStep.stageLoad, LoadStep.mergeStep] ∨
      (load_movies_to_bigquery stageOk mergeOk truncOk st movies now).2.2 =
        [LoadStep.setup, LoadStep.stageLoad, LoadStep.mergeStep, LoadStep.truncateStep]) := by
  cases stageOk <;> cases mergeOk <;> cases truncOk <;>
    simp [load_movies_to_bigquery]

/-- Witness for C2: with a failing merge, the trace holds no truncation
and staging still holds the batch; with everything succeeding, staging
ends empty. -/
theorem c2_truncate_only_after_merge_witness :
    (LoadStep.truncateStep ∉ (load_movies_to_bigquery true false true st0 movies0 5).2.2 ∧
      (load_movies_to_bigquery true false true st0 movies0 5).2.1.staging = movies0 ∧
      (load_movies_to_bigquery true false true st0 movies0 5).1 = Except.error ()) ∧
    (load_movies_to_bigquery true true true st0 movies0 5).2.1.staging = [] :=
  ⟨(c2_truncate_only_after_merge true false true st0 movies0 5).2.1 rfl rfl,
   ((c2_truncate_only_after_merge true true true st0 movies0 5).2.2.2.1 rfl rfl rfl).2⟩

/-- The updated target row of the merge keeps its key. -/
theorem merge_update_link {α : Type} (source : List (BQRow α)) (now : Int) (t : BQRow α) :
    (match source.find? (fun s : BQRow α => s.link == t.link) with
      | some s => BQRow.mk t.link s.payload now
      | none => t).link = t.link := by
  cases hf : source.find? (fun s : BQRow α => s.link == t.link) <;> rfl

/-- Every staged link is present in the merged table. -/
theorem merge_covers_source {α : Type} (target source : List (BQRow α)) (now : Int)
    (s : BQRow α) (hs : s ∈ source) :
    ∃ r ∈ mergeTables target source now, r.link = s.link := by
  by_cases hmatch : target.any (fun t => t.link == s.link) = true
  · obtain ⟨t, ht, hlink⟩ := List.any_eq_true.mp hmatch
    refine ⟨_, List.mem_append_left _ (List.mem_map_of_mem _ ht), ?_⟩
    rw [merge_update_link]
    exact eq_of_beq hlink
  · refine ⟨BQRow.mk s.link s.payload now, List.mem_append_right _ ?_, rfl⟩
    refine List.mem_map_of_mem _ (List.mem_filter.mpr ⟨hs, ?_⟩)
    simp only [Bool.not_eq_true] at hmatch
    simp [hmatch]

/-- Row count of one merge: old rows plus the staged rows with new keys. -/
theorem mergeTables_length {α : Type} (target source : List (BQRow α)) (now : Int) :
    (mergeTables target source now).length =
      target.length +
        (source.filter (fun s => !(target.any fun t => t.link == s.link))).length := by
  simp [mergeTables]

/-- Merging the same batch into the merged table inserts nothing. -/
theorem merge_again_no_insert {α : Type} (target source : List (BQRow α)) (t₁ : Int) :
    (source.filter
        (fun s => !((mergeTables target source t₁).any fun t => t.link == s.link))) = [] := by
  rw [List.filter_eq_nil_iff]
  intro s hs
  obtain ⟨r, hr, hlink⟩ := merge_covers_source target source t₁ s hs
  have hany : (mergeTables target source t₁).any (fun t => t.link == s.link) = true :=
    List.any_eq_true.mpr ⟨r, hr, beq_iff_eq.mpr hlink⟩
  simp [hany]

/-- Lemma: `find?` on a nodup-keyed source finds exactly the staged row with the
sought key. -/
theorem find?_link_eq {α : Type} {source : List (BQRow α)}
    (hnd : (source.map BQRow.link).Nodup) {m : BQRow α} (hm : m ∈ source)
    {k : String} (hk : m.link = k) :
    source.find? (fun s : BQRow α => s.link == k) = some m := by
  induction source with
  | nil => cases hm
  | cons s rest ih =>
    by_cases hs : s.link = k
    · have hsm : s = m := by
        rcases List.mem_cons.mp hm with rfl | hm'
        · rfl
        · exfalso
          have hnotin : s.link ∉ rest.map BQRow.link := (List.nodup_cons.mp hnd).1
          exact hnotin (by rw [hs, ← hk]; exact List.mem_map_of_mem _ hm')
      subst hsm
      exact List.find?_cons_of_pos _ (beq_iff_eq.mpr hs)
    · have hm' : m ∈ rest := by
        rcases List.mem_cons.mp hm with rfl | hm'
        · exact absurd hk hs
        · exact hm'
      rw [List.find?_cons_of_neg _ (by simp [hs])]
      exact ih (List.nodup_cons.mp hnd).2 hm'

/-- Any merged row carrying a staged key is exactly the refreshed row:
staged payload, timestamp `now`, key kept. -/
theorem merge_row_overwrite {α : Type} (target source : List (BQRow α)) (now : Int)
    (hnd : (source.map BQRow.link).Nodup) :
    ∀ r' ∈ mergeTables target source now, ∀ m ∈ source, r'.link = m.link →
      r' = BQRow.mk m.link m.payload now := by
  intro r' hr' m hm hlink
  rcases List.mem_append.mp hr' with h | h
  · obtain ⟨t, ht, rfl⟩ := List.mem_map.mp h
    have hlt : t.link = m.link := by rw [← hlink, merge_update_link]
    have hfind : source.find? (fun s : BQRow α => s.link == t.link) = some m :=
      find?_link_eq hnd hm hlt.symm
    rw [hfind]
    simp [hlt]
  · obtain ⟨s, hsf, rfl⟩ := List.mem_map.mp h
    have hsM : s ∈ source := (List.mem_filter.mp hsf).1
    have hsm : s = m := by
      have hinj := List.inj_on_of_nodup_map hnd
      exact hinj hsM hm (by simpa using hlink)
    subst hsm
    rfl

/-- Claim C1: a fault-free load phase is idempotent on the canonical row
count — loading the same batch twice leaves the count unchanged after the
second run — and each merge upserts by `link`: a staged row whose link
matches an existing canonical row yields exactly the row with the staged
payload (every non-key column) and `date_updated` set to the load time
(`t₁`, not the staged row's own timestamp), a staged row with a fresh
link is inserted, and one run grows the table by exactly the number of
fresh links. -/
theorem c1_load_phase_upsert_idempotent {α : Type} (st : BQState α)
    (movies : List (BQRow α)) (t₁ t₂ : Int)
    (hnd : (movies.map BQRow.link).Nodup) :
    ((loadOnce (loadOnce st movies t₁) movies t₂).main.length =
        (loadOnce st movies t₁).main.length) ∧
    (∀ m ∈ movies, ∀ r ∈ st.main, r.link = m.link →
        BQRow.mk m.link m.payload t₁ ∈ (loadOnce st movies t₁).main) ∧
    (∀ m ∈ movies, (∀ r ∈ st.main, r.link ≠ m.link) →
        BQRow.mk m.link m.payload t₁ ∈ (loadOnce st movies t₁).main) ∧
    (∀ r' ∈ (loadOnce st movies t₁).main, ∀ m ∈ movies, r'.link = m.link →
        r' = BQRow.mk m.link m.payload t₁) ∧
    ((loadOnce st movies t₁).main.length =
        st.main.length +
          (movies.filter (fun m => !(st.main.any fun r => r.link == m.link))).length) := by
  have hmain : ∀ (s : BQState α) (t : Int),
      (loadOnce s movies t).main = mergeTables s.main movies t := fun _ _ => rfl
  refine ⟨?_, ?_, ?_, ?_, ?_⟩
  · rw [hmain, hmain, mergeTables_length, merge_again_no_insert]
    simp
  · intro m hm r hr hlink
    rw [hmain]
    have hfind : movies.find? (fun s : BQRow α => s.link == r.link) = some m :=
      find?_link_eq hnd hm hlink.symm
    have hmem : (match movies.find? (fun s : BQRow α => s.link == r.link) with
        | some s => BQRow.mk r.link s.payload t₁
        | none => r) ∈ mergeTables st.main movies t₁ :=
      List.mem_append_left _ (List.mem_map_of_mem _ hr)
    rw [hfind] at hmem
    rwa [hlink] at hmem
  · intro m hm hfresh
    rw [hmain]
    have hnone : (st.main.any fun r => r.link == m.link) = false := by
      rw [List.any_eq_false]
      intro r hr
      simp [hfresh r hr]
    refine List.mem_append_right _ ?_
    exact List.mem_map_of_mem _ (List.mem_filter.mpr ⟨hm, by simp [hnone]⟩)
  · rw [hmain]
    exact merge_row_overwrite st.main movies t₁ hnd
  · rw [hmain]
    exact mergeTables_length st.main movies t₁

/-- Witness for C1, at a one-row table and a two-row batch (one matching
link, one fresh). -/
theorem c1_load_phase_upsert_idempotent_witness :
    (movies0.map BQRow.link).Nodup ∧
      (loadOnce (loadOnce st0 movies0 10) movies0 20).main.length =
        (loadOnce st0 movies0 10).main.length :=
  ⟨by decide, (c1_load_phase_upsert_idempotent st0 movies0 10 20 (by decide)).1⟩

end ScraperFilmes
